import Mathlib

/-!
Verification of the caffe2 sequence padding operators
(`src/caffe2/operators/sequence_ops.cc`): `AddPaddingOp`, `RemovePaddingOp`
and `GatherPaddingOp`.  The operators work over row-major buffers: a tensor
with dims `d0 :: rest` holds `d0` rows of `block_size = prod rest` scalar
elements each.  Segment lengths partition the rows; the operators insert,
strip, or sum fixed-width padding rows at segment boundaries.

The embedding follows the C++ closely: lengths are 64-bit signed integers
(modelled as `Int`), pointer movement is an integer offset into the flat
data list, and every raw-pointer read carries an explicit bounds guard whose
failure branch (`PadError.outOfBounds`) models undefined behaviour that the
C++ would exhibit on the same input.  Failed `CHECK_*` macros are modelled as
the remaining error branches.  The per-segment loops return, on error, the
rows already written before the abort, so that eager-validation claims can be
stated about partial output.
-/

namespace SequenceOps

/-- Error kinds signalled by the operators' runtime checks (plus the
out-of-bounds branch that models undefined pointer arithmetic). -/
inductive PadError where
  | badDims
  | negativeWidth
  | shapeMismatch
  | lengthOverrun
  | outOfBounds
  | missingInput
  deriving DecidableEq, Repr

/-- A row-major tensor: dimension extents (caffe2 `TIndex`, i.e. 64-bit
signed) plus the flattened element data. -/
structure Tensor (α : Type) where
  dims : List Int
  data : List α
  deriving DecidableEq, Repr

/-- Element count of a tensor as recorded by its shape (`Tensor::size()`). -/
def Tensor.size {α : Type} (t : Tensor α) : Int :=
  t.dims.foldl (· * ·) 1

/-- The `block_size`: product of all dimensions beyond the leading one
(`std::accumulate(in.dims().begin() + 1, in.dims().end(), 1, multiplies)`). -/
def blockSize (rest : List Int) : Int :=
  rest.foldl (· * ·) 1

/-- Resolution of the two width arguments done in each operator's
constructor: `CHECK_GE(startPaddingWidth_, 0)`, and a negative
`end_padding_width` defaults to the start width. -/
def resolveWidths (pw ew : Int) : Except PadError (Int × Int) :=
  if pw < 0 then .error .negativeWidth
  else .ok (pw, if ew < 0 then pw else ew)

/-- Guarded contiguous read of `cnt` elements at offset `off` of the flat
data.  The C++ reads through a raw pointer; leaving the allocation is
undefined behaviour, modelled by the `outOfBounds` branch. -/
def readChunk {α : Type} (data : List α) (off cnt : Int) :
    Except PadError (List α) :=
  if 0 ≤ off ∧ 0 ≤ cnt ∧ off + cnt ≤ (data.length : Int) then
    .ok ((data.drop off.toNat).take cnt.toNat)
  else
    .error .outOfBounds

/-- The rows written for one padding side of one segment: `w` copies of the
template block if one was supplied (`std::copy` per copy), otherwise
zero fill (`memset(out_ptr, 0, block_size * width * sizeof(T))`). -/
def padFill {α : Type} [Zero α] (bs w : Int) (tmpl : Option (List α)) :
    List α :=
  match tmpl with
  | none => List.replicate (bs * w).toNat 0
  | some p => (List.replicate w.toNat p).flatten

/-- The per-segment loop of `AddPaddingOp::DoRunWithType`: for each length,
first `CHECK_LE(total_length, outer_size)`, then write the start padding,
copy the payload, and write the end padding.  On error the partial output
written before the abort is returned alongside the error. -/
def addLoop {α : Type} [Zero α] (bs s e : Int) (padS padE : Option (List α))
    (data : List α) (outer : Int) :
    List Int → Int → Int → List α → Except (PadError × List α) (List α)
  | [], _, _, acc => .ok acc
  | l :: ls, pos, total, acc =>
    if outer < total + l then .error (.lengthOverrun, acc)
    else
      let fillS := padFill bs s padS
      let fillE := padFill bs e padE
      match readChunk data pos (bs * l) with
      | .error err => .error (err, acc ++ fillS)
      | .ok payload =>
        addLoop bs s e padS padE data outer ls (pos + bs * l) (total + l)
          (acc ++ fillS ++ payload ++ fillE)

/-- Fetching of the optional padding-template inputs by
`AddPaddingOp::DoRunWithType`: with one template it is shared between start
and end; each template must have exactly `block_size` elements
(`CHECK_EQ(block_size, padding.size())`). -/
def resolveTemplates {α : Type} (templates : List (Tensor α)) (bs : Int) :
    Except PadError (Option (List α) × Option (List α)) :=
  match templates with
  | [] => .ok (none, none)
  | [t0] =>
    if bs = t0.size then .ok (some t0.data, some t0.data)
    else .error .shapeMismatch
  | t0 :: t1 :: _ =>
    if bs = t0.size then
      if bs = t1.size then .ok (some t0.data, some t1.data)
      else .error .shapeMismatch
    else .error .shapeMismatch

/-- Kernel `AddPaddingOp::DoRunWithType`: resolve shape and lengths (absent lengths
mean one segment spanning all `d0` rows), fetch templates, run the segment
loop, set the output shape `d0 + (s+e)*num_segments`, and, when a second
output is requested, emit the lengths each increased by `s + e`. -/
def addPaddingFull {α : Type} [Zero α] (s e : Int) (inT : Tensor α)
    (lengthsIn : Option (List Int)) (templates : List (Tensor α))
    (twoOutputs : Bool) :
    Except PadError (Tensor α × Option (List Int)) :=
  match inT.dims with
  | [] => .error .badDims
  | d0 :: rest =>
    let bs := blockSize rest
    let lengths := match lengthsIn with
      | some L => L
      | none => [d0]
    match resolveTemplates templates bs with
    | .error err => .error err
    | .ok (padS, padE) =>
      match addLoop bs s e padS padE inT.data d0 lengths 0 0 [] with
      | .error (err, _) => .error err
      | .ok outData =>
        .ok (⟨(d0 + (s + e) * (lengths.length : Int)) :: rest, outData⟩,
          if twoOutputs then some (lengths.map (· + (s + e))) else none)

/-- Dispatcher `AddPaddingOp::RunOnDevice`: when both widths are zero the inputs are
copied through verbatim with no validation at all; otherwise dispatch to the
typed kernel. -/
def addPaddingRun {α : Type} [Zero α] (s e : Int) (inT : Tensor α)
    (lengthsIn : Option (List Int)) (templates : List (Tensor α))
    (twoOutputs : Bool) :
    Except PadError (Tensor α × Option (List Int)) :=
  if s = 0 ∧ e = 0 then
    if twoOutputs then
      match lengthsIn with
      | some L => .ok (inT, some L)
      | none => .error .missingInput
    else .ok (inT, none)
  else addPaddingFull s e inT lengthsIn templates twoOutputs

/-- The per-segment loop of `RemovePaddingOp::DoRunWithType`: for each
length, `CHECK_LE(total_length, outer_size)`, then
`std::copy(in_ptr + bs*s, in_ptr + bs*(length - e), out_ptr)` and advance the
read cursor by `bs * length`. -/
def removeLoop {α : Type} (bs s e : Int) (data : List α) (outer : Int) :
    List Int → Int → Int → List α → Except (PadError × List α) (List α)
  | [], _, _, acc => .ok acc
  | l :: ls, pos, total, acc =>
    if outer < total + l then .error (.lengthOverrun, acc)
    else
      match readChunk data (pos + bs * s) (bs * (l - e) - bs * s) with
      | .error err => .error (err, acc)
      | .ok chunk =>
        removeLoop bs s e data outer ls (pos + bs * l) (total + l)
          (acc ++ chunk)

/-- Kernel `RemovePaddingOp::DoRunWithType`: output shape
`d0 - (s+e)*num_segments`, segment loop, and, when a second output is
requested, the lengths each decreased by `s + e`. -/
def removePaddingFull {α : Type} (s e : Int) (inT : Tensor α)
    (lengthsIn : Option (List Int)) (twoOutputs : Bool) :
    Except PadError (Tensor α × Option (List Int)) :=
  match inT.dims with
  | [] => .error .badDims
  | d0 :: rest =>
    let bs := blockSize rest
    let lengths := match lengthsIn with
      | some L => L
      | none => [d0]
    match removeLoop bs s e inT.data d0 lengths 0 0 [] with
    | .error (err, _) => .error err
    | .ok outData =>
      .ok (⟨(d0 - (s + e) * (lengths.length : Int)) :: rest, outData⟩,
        if twoOutputs then some (lengths.map (· - (s + e))) else none)

/-- Dispatcher `RemovePaddingOp::RunOnDevice`: zero-width fast path copies the inputs
through verbatim with no validation; otherwise dispatches to the kernel. -/
def removePaddingRun {α : Type} (s e : Int) (inT : Tensor α)
    (lengthsIn : Option (List Int)) (twoOutputs : Bool) :
    Except PadError (Tensor α × Option (List Int)) :=
  if s = 0 ∧ e = 0 then
    if twoOutputs then
      match lengthsIn with
      | some L => .ok (inT, some L)
      | none => .error .missingInput
    else .ok (inT, none)
  else removePaddingFull s e inT lengthsIn twoOutputs

/-- Runs `n` iterations of `GatherPaddingOp`'s accumulation inner loop: add one
`block_size` row of `rows` element-wise into the accumulator, then advance
the row pointer. -/
def accRows {α : Type} [Add α] (bs : Int) : Nat → List α → List α → List α
  | 0, acc, _ => acc
  | n + 1, acc, rows =>
    accRows bs n (List.zipWith (· + ·) acc (rows.take bs.toNat))
      (rows.drop bs.toNat)

/-- The per-segment loop of `GatherPaddingOp::DoRunWithType`:
`CHECK_LE(total_length, outer_size)`, accumulate the `s` leading rows into
the start accumulator, skip `length - pad_width` payload rows, accumulate the
`e` trailing rows into the end accumulator — which aliases the start
accumulator when only one output is requested. -/
def gatherLoop {α : Type} [Add α] (bs s e : Int) (data : List α)
    (outer : Int) (twoOut : Bool) :
    List Int → Int → Int → List α → List α →
      Except (PadError × List α × List α) (List α × List α)
  | [], _, _, accS, accE => .ok (accS, accE)
  | l :: ls, pos, total, accS, accE =>
    if outer < total + l then .error (.lengthOverrun, accS, accE)
    else
      match readChunk data pos (bs * s) with
      | .error err => .error (err, accS, accE)
      | .ok startRows =>
        let accS' := accRows bs s.toNat accS startRows
        let pos' := pos + bs * s + bs * (l - (s + e))
        match readChunk data pos' (bs * e) with
        | .error err => .error (err, accS', accE)
        | .ok endRows =>
          if twoOut then
            gatherLoop bs s e data outer twoOut ls (pos' + bs * e)
              (total + l) accS' (accRows bs e.toNat accE endRows)
          else
            gatherLoop bs s e data outer twoOut ls (pos' + bs * e)
              (total + l) (accRows bs e.toNat accS' endRows) accE

/-- Kernel `GatherPaddingOp::DoRunWithType`: the outputs have the block shape
(`padShape`, the input dims minus the leading one) and start as zeroed
accumulators (`memset`). -/
def gatherPaddingFull {α : Type} [Zero α] [Add α] (s e : Int)
    (inT : Tensor α) (lengthsIn : Option (List Int)) (twoOutputs : Bool) :
    Except PadError (Tensor α × Option (Tensor α)) :=
  match inT.dims with
  | [] => .error .badDims
  | d0 :: rest =>
    let bs := blockSize rest
    let lengths := match lengthsIn with
      | some L => L
      | none => [d0]
    let accS0 := List.replicate bs.toNat (0 : α)
    let accE0 := List.replicate bs.toNat (0 : α)
    match gatherLoop bs s e inT.data d0 twoOutputs lengths 0 0 accS0 accE0 with
    | .error (err, _, _) => .error err
    | .ok (accS, accE) =>
      .ok (⟨rest, accS⟩, if twoOutputs then some ⟨rest, accE⟩ else none)

/-- Dispatcher `GatherPaddingOp::RunOnDevice`: when both widths are zero each requested
output is merely resized to an empty dims vector
(`Output(i)->Resize(std::vector<TIndex>(0))`) and no element is written;
otherwise dispatch to the typed kernel. -/
def gatherPaddingRun {α : Type} [Zero α] [Add α] (s e : Int)
    (inT : Tensor α) (lengthsIn : Option (List Int)) (twoOutputs : Bool) :
    Except PadError (Tensor α × Option (Tensor α)) :=
  if s = 0 ∧ e = 0 then
    .ok (⟨[], []⟩, if twoOutputs then some ⟨[], []⟩ else none)
  else gatherPaddingFull s e inT lengthsIn twoOutputs

/-- Schema bound `OPERATOR_SCHEMA(AddPadding).NumInputs(1, 4)`. -/
def addPaddingNumInputs : Nat × Nat := (1, 4)

/-- Schema bound `OPERATOR_SCHEMA(RemovePadding).NumInputs(1, 2)`. -/
def removePaddingNumInputs : Nat × Nat := (1, 2)

/-- Schema bound `OPERATOR_SCHEMA(GatherPadding).NumInputs(2)` (exactly two inputs). -/
def gatherPaddingNumInputs : Nat × Nat := (2, 2)

/-- Whether the registered operator schema admits an invocation with `n`
inputs. -/
def schemaAccepts (bounds : Nat × Nat) (n : Nat) : Bool :=
  decide (bounds.1 ≤ n) && decide (n ≤ bounds.2)

/-- The data `addLoop` produces, in consumed-payload form: for each segment,
the start fill, the next `bs * l` payload elements, and the end fill. -/
def addChunks {α : Type} [Zero α] (bs s e : Int) (padS padE : Option (List α))
    (rem : List α) : List Int → List α
  | [] => []
  | l :: ls =>
    padFill bs s padS ++ rem.take (bs * l).toNat ++ padFill bs e padE ++
      addChunks bs s e padS padE (rem.drop (bs * l).toNat) ls

/-! ### Arithmetic and list helpers -/

theorem toNat_mul_of_nonneg {a b : Int} (ha : 0 ≤ a) (hb : 0 ≤ b) :
    (a * b).toNat = a.toNat * b.toNat := by
  have h1 : ((a * b).toNat : Int) = a * b := Int.toNat_of_nonneg (mul_nonneg ha hb)
  have h2 : ((a.toNat * b.toNat : Nat) : Int) = a * b := by
    push_cast
    rw [Int.toNat_of_nonneg ha, Int.toNat_of_nonneg hb]
  exact_mod_cast h1.trans h2.symm

theorem toNat_le_of_le {a : Int} {n : Nat} (h : a ≤ (n : Int)) : a.toNat ≤ n := by
  omega

theorem sum_map_add_const (L : List Int) (c : Int) :
    (L.map (· + c)).sum = L.sum + c * (L.length : Int) := by
  induction L with
  | nil => simp
  | cons l ls ih =>
    simp only [List.map_cons, List.sum_cons, List.length_cons, ih]
    push_cast
    ring

theorem sum_map_nonneg {L : List Int} {c : Int} (hL : ∀ l ∈ L, 0 ≤ l)
    (hc : 0 ≤ c) : 0 ≤ (L.map (· + c)).sum := by
  refine List.sum_nonneg ?_
  intro x hx
  rcases List.mem_map.mp hx with ⟨l, hl, rfl⟩
  have := hL l hl
  omega

theorem padFill_length {α : Type} [Zero α] {bs w : Int} (hbs : 0 ≤ bs)
    (hw : 0 ≤ w) {t : Option (List α)}
    (ht : ∀ p, t = some p → p.length = bs.toNat) :
    (padFill bs w t).length = (bs * w).toNat := by
  cases t with
  | none => simp [padFill]
  | some p =>
    simp [padFill, List.length_flatten, List.map_replicate,
      List.sum_replicate, smul_eq_mul, ht p rfl,
      toNat_mul_of_nonneg hbs hw, Nat.mul_comm]

theorem readChunk_eq_ok {α : Type} {data : List α} {off cnt : Int}
    (h1 : 0 ≤ off) (h2 : 0 ≤ cnt) (h3 : off + cnt ≤ (data.length : Int)) :
    readChunk data off cnt = .ok ((data.drop off.toNat).take cnt.toNat) := by
  simp [readChunk, h1, h2, h3]

theorem readChunk_res_length {α : Type} {data : List α} {off cnt : Int}
    (h1 : 0 ≤ off) (h2 : 0 ≤ cnt) (h3 : off + cnt ≤ (data.length : Int)) :
    ((data.drop off.toNat).take cnt.toNat).length = cnt.toNat := by
  rw [List.length_take, List.length_drop]
  omega

/-! ### Structural lemmas for the AddPadding segment loop -/

theorem addLoop_ok {α : Type} [Zero α] {bs s e : Int}
    {padS padE : Option (List α)} {data : List α} {outer : Int}
    (hbs : 0 ≤ bs) (hs : 0 ≤ s) (he : 0 ≤ e) :
    ∀ (L : List Int) (pos total : Int) (acc : List α),
      0 ≤ pos →
      (∀ l ∈ L, 0 ≤ l) →
      total + L.sum ≤ outer →
      pos + bs * L.sum ≤ (data.length : Int) →
      addLoop bs s e padS padE data outer L pos total acc
        = .ok (acc ++ addChunks bs s e padS padE (data.drop pos.toNat) L) := by
  intro L
  induction L with
  | nil =>
    intro pos total acc _ _ _ _
    simp [addLoop, addChunks]
  | cons l ls ih =>
    intro pos total acc hpos hL htot hlen
    have hl : 0 ≤ l := hL l (by simp)
    have hls : ∀ x ∈ ls, 0 ≤ x := fun x hx => hL x (by simp [hx])
    have hsum : 0 ≤ ls.sum := List.sum_nonneg hls
    have hbl : 0 ≤ bs * l := mul_nonneg hbs hl
    have hbsum : 0 ≤ bs * ls.sum := mul_nonneg hbs hsum
    have hsc : (l :: ls).sum = l + ls.sum := List.sum_cons
    have hdist : bs * (l + ls.sum) = bs * l + bs * ls.sum := by ring
    have hstep : ¬ outer < total + l := by
      rw [hsc] at htot
      omega
    have hread : pos + bs * l ≤ (data.length : Int) := by
      rw [hsc, hdist] at hlen
      omega
    have hrc := readChunk_eq_ok hpos hbl hread
    rw [addLoop, if_neg hstep, hrc]
    dsimp only
    have hrec := ih (pos + bs * l) (total + l)
      (acc ++ padFill bs s padS ++ (data.drop pos.toNat).take (bs * l).toNat
        ++ padFill bs e padE)
      (by omega) hls (by rw [hsc] at htot; omega)
      (by rw [hsc, hdist] at hlen; omega)
    rw [hrec, addChunks]
    have hdd : (data.drop pos.toNat).drop (bs * l).toNat
        = data.drop (pos + bs * l).toNat := by
      rw [List.drop_drop, ← Int.toNat_add hpos hbl]
    rw [hdd]
    simp [List.append_assoc]

theorem addLoop_append_ok {α : Type} [Zero α] {bs s e : Int}
    {padS padE : Option (List α)} {data : List α} {outer : Int} :
    ∀ (L₁ L₂ : List Int) (pos total : Int) (acc acc' : List α),
      addLoop bs s e padS padE data outer L₁ pos total acc = .ok acc' →
      addLoop bs s e padS padE data outer (L₁ ++ L₂) pos total acc
        = addLoop bs s e padS padE data outer L₂ (pos + bs * L₁.sum)
            (total + L₁.sum) acc' := by
  intro L₁
  induction L₁ with
  | nil =>
    intro L₂ pos total acc acc' h
    rw [addLoop] at h
    cases h
    simp
  | cons l ls ih =>
    intro L₂ pos total acc acc' h
    rw [addLoop] at h
    rw [List.cons_append, addLoop]
    by_cases hc : outer < total + l
    · rw [if_pos hc] at h
      cases h
    · rw [if_neg hc] at h ⊢
      cases hrc : readChunk data pos (bs * l) with
      | error err =>
        rw [hrc] at h
        cases h
      | ok payload =>
        rw [hrc] at h
        dsimp only at h ⊢
        rw [ih L₂ _ _ _ _ h]
        have e1 : pos + bs * l + bs * ls.sum = pos + bs * (l :: ls).sum := by
          rw [List.sum_cons]
          ring
        have e2 : total + l + ls.sum = total + (l :: ls).sum := by
          rw [List.sum_cons]
          ring
        rw [e1, e2]

/-! ### Structural lemmas for the RemovePadding segment loop -/

theorem removeLoop_ok {α : Type} {bs s e : Int} {data : List α} {outer : Int}
    (hbs : 0 ≤ bs) (hs : 0 ≤ s) (he : 0 ≤ e) :
    ∀ (L : List Int) (pos total : Int) (acc : List α),
      0 ≤ pos →
      (∀ l ∈ L, s + e ≤ l) →
      total + L.sum ≤ outer →
      pos + bs * L.sum ≤ (data.length : Int) →
      ∃ w, removeLoop bs s e data outer L pos total acc = .ok (acc ++ w)
        ∧ (w.length : Int) = bs * (L.sum - (s + e) * (L.length : Int)) := by
  intro L
  induction L with
  | nil =>
    intro pos total acc _ _ _ _
    refine ⟨[], ?_, by simp⟩
    simp [removeLoop]
  | cons l ls ih =>
    intro pos total acc hpos hL htot hlen
    have hl : s + e ≤ l := hL l (by simp)
    have hl0 : 0 ≤ l := by omega
    have hls : ∀ x ∈ ls, s + e ≤ x := fun x hx => hL x (by simp [hx])
    have hls0 : ∀ x ∈ ls, 0 ≤ x := fun x hx => by have := hls x hx; omega
    have hsum : 0 ≤ ls.sum := List.sum_nonneg hls0
    have hbl : 0 ≤ bs * l := mul_nonneg hbs hl0
    have hbsum : 0 ≤ bs * ls.sum := mul_nonneg hbs hsum
    have hsc : (l :: ls).sum = l + ls.sum := List.sum_cons
    have hdist : bs * (l + ls.sum) = bs * l + bs * ls.sum := by ring
    have hstep : ¬ outer < total + l := by
      rw [hsc] at htot
      omega
    have hoff : 0 ≤ pos + bs * s := by
      have := mul_nonneg hbs hs
      omega
    have hcnt0 : 0 ≤ bs * (l - e) - bs * s := by
      have : bs * (l - e) - bs * s = bs * (l - e - s) := by ring
      rw [this]
      exact mul_nonneg hbs (by omega)
    have hrdend : pos + bs * s + (bs * (l - e) - bs * s)
        ≤ (data.length : Int) := by
      have h1 : pos + bs * s + (bs * (l - e) - bs * s) = pos + bs * (l - e) := by
        ring
      have h2 : bs * (l - e) ≤ bs * l :=
        mul_le_mul_of_nonneg_left (by omega) hbs
      rw [hsc, hdist] at hlen
      omega
    have hrc := readChunk_eq_ok hoff hcnt0 hrdend
    rw [removeLoop, if_neg hstep, hrc]
    dsimp only
    obtain ⟨w, hw, hwlen⟩ := ih (pos + bs * l) (total + l)
      (acc ++ (data.drop (pos + bs * s).toNat).take
        (bs * (l - e) - bs * s).toNat)
      (by omega) hls (by rw [hsc] at htot; omega)
      (by rw [hsc, hdist] at hlen; omega)
    rw [hw]
    refine ⟨(data.drop (pos + bs * s).toNat).take
      (bs * (l - e) - bs * s).toNat ++ w, by rw [List.append_assoc], ?_⟩
    have hclen := readChunk_res_length hoff hcnt0 hrdend
    rw [List.length_append, hclen]
    push_cast
    rw [Int.toNat_of_nonneg hcnt0, hwlen]
    rw [hsc, List.length_cons]
    push_cast
    ring

theorem removeLoop_append_ok {α : Type} {bs s e : Int} {data : List α}
    {outer : Int} :
    ∀ (L₁ L₂ : List Int) (pos total : Int) (acc acc' : List α),
      removeLoop bs s e data outer L₁ pos total acc = .ok acc' →
      removeLoop bs s e data outer (L₁ ++ L₂) pos total acc
        = removeLoop bs s e data outer L₂ (pos + bs * L₁.sum)
            (total + L₁.sum) acc' := by
  intro L₁
  induction L₁ with
  | nil =>
    intro L₂ pos total acc acc' h
    rw [removeLoop] at h
    cases h
    simp
  | cons l ls ih =>
    intro L₂ pos total acc acc' h
    rw [removeLoop] at h
    rw [List.cons_append, removeLoop]
    by_cases hc : outer < total + l
    · rw [if_pos hc] at h
      cases h
    · rw [if_neg hc] at h ⊢
      cases hrc : readChunk data (pos + bs * s) (bs * (l - e) - bs * s) with
      | error err =>
        rw [hrc] at h
        cases h
      | ok chunk =>
        rw [hrc] at h
        dsimp only at h ⊢
        rw [ih L₂ _ _ _ _ h]
        have e1 : pos + bs * l + bs * ls.sum = pos + bs * (l :: ls).sum := by
          rw [List.sum_cons]
          ring
        have e2 : total + l + ls.sum = total + (l :: ls).sum := by
          rw [List.sum_cons]
          ring
        rw [e1, e2]

/-! ### Structural lemmas for the GatherPadding segment loop -/

theorem accRows_length {α : Type} [Add α] {bs : Int} :
    ∀ (n : Nat) (acc rows : List α),
      acc.length = bs.toNat → rows.length = n * bs.toNat →
      (accRows bs n acc rows).length = bs.toNat := by
  intro n
  induction n with
  | zero =>
    intro acc rows ha _
    simpa [accRows] using ha
  | succ n ih =>
    intro acc rows ha hr
    rw [accRows]
    have hle : bs.toNat ≤ (n + 1) * bs.toNat :=
      Nat.le_mul_of_pos_left _ (Nat.succ_pos n)
    have hmul : (n + 1) * bs.toNat = n * bs.toNat + bs.toNat := Nat.succ_mul n _
    apply ih
    · rw [List.length_zipWith, List.length_take, ha, hr]
      rw [hmul] at hle ⊢
      omega
    · rw [List.length_drop, hr, hmul]
      omega

theorem gatherLoop_ok {α : Type} [Add α] {bs s e : Int} {data : List α}
    {outer : Int} {twoOut : Bool}
    (hbs : 0 ≤ bs) (hs : 0 ≤ s) (he : 0 ≤ e) :
    ∀ (L : List Int) (pos total : Int) (accS accE : List α),
      0 ≤ pos →
      (∀ l ∈ L, s + e ≤ l) →
      total + L.sum ≤ outer →
      pos + bs * L.sum ≤ (data.length : Int) →
      accS.length = bs.toNat → accE.length = bs.toNat →
      ∃ aS aE, gatherLoop bs s e data outer twoOut L pos total accS accE
          = .ok (aS, aE) ∧ aS.length = bs.toNat ∧ aE.length = bs.toNat := by
  intro L
  induction L with
  | nil =>
    intro pos total accS accE _ _ _ _ haS haE
    exact ⟨accS, accE, by rw [gatherLoop], haS, haE⟩
  | cons l ls ih =>
    intro pos total accS accE hpos hL htot hlen haS haE
    have hl : s + e ≤ l := hL l (by simp)
    have hls : ∀ x ∈ ls, s + e ≤ x := fun x hx => hL x (by simp [hx])
    have hls0 : ∀ x ∈ ls, 0 ≤ x := fun x hx => by have := hls x hx; omega
    have hsum : 0 ≤ ls.sum := List.sum_nonneg hls0
    have hbl : 0 ≤ bs * l := mul_nonneg hbs (by omega)
    have hbsum : 0 ≤ bs * ls.sum := mul_nonneg hbs hsum
    have hbs' : 0 ≤ bs * s := mul_nonneg hbs hs
    have hbe : 0 ≤ bs * e := mul_nonneg hbs he
    have hbmid : 0 ≤ bs * (l - (s + e)) := mul_nonneg hbs (by omega)
    have hsc : (l :: ls).sum = l + ls.sum := List.sum_cons
    have hdist : bs * (l + ls.sum) = bs * l + bs * ls.sum := by ring
    have hstep : ¬ outer < total + l := by
      rw [hsc] at htot
      omega
    have hse : bs * s + bs * (l - (s + e)) + bs * e = bs * l := by ring
    have hrd1 : pos + bs * s ≤ (data.length : Int) := by
      rw [hsc, hdist] at hlen
      omega
    have hrc1 := readChunk_eq_ok hpos hbs' hrd1
    have hpos2 : 0 ≤ pos + bs * s + bs * (l - (s + e)) := by omega
    have hrd2 : pos + bs * s + bs * (l - (s + e)) + bs * e
        ≤ (data.length : Int) := by
      rw [hsc, hdist] at hlen
      omega
    have hrc2 := readChunk_eq_ok hpos2 hbe hrd2
    rw [gatherLoop, if_neg hstep, hrc1]
    dsimp only
    rw [hrc2]
    dsimp only
    have hlen1 := readChunk_res_length hpos hbs' hrd1
    have hlen2 := readChunk_res_length hpos2 hbe hrd2
    have haS' : (accRows bs s.toNat accS
        ((data.drop pos.toNat).take (bs * s).toNat)).length = bs.toNat := by
      apply accRows_length s.toNat _ _ haS
      rw [hlen1, toNat_mul_of_nonneg hbs hs, Nat.mul_comm]
    have hposrec : 0 ≤ pos + bs * s + bs * (l - (s + e)) + bs * e := by omega
    have hlenrec : pos + bs * s + bs * (l - (s + e)) + bs * e + bs * ls.sum
        ≤ (data.length : Int) := by
      have h3 : pos + bs * s + bs * (l - (s + e)) + bs * e + bs * ls.sum
          = pos + bs * l + bs * ls.sum := by ring
      rw [h3]
      rw [hsc, hdist] at hlen
      omega
    have htotrec : total + l + ls.sum ≤ outer := by
      rw [hsc] at htot
      omega
    cases twoOut with
    | true =>
      have haE' : (accRows bs e.toNat accE
          ((data.drop (pos + bs * s + bs * (l - (s + e))).toNat).take
            (bs * e).toNat)).length = bs.toNat := by
        apply accRows_length e.toNat _ _ haE
        rw [hlen2, toNat_mul_of_nonneg hbs he, Nat.mul_comm]
      simp only [if_true]
      exact ih _ _ _ _ hposrec hls htotrec hlenrec haS' haE'
    | false =>
      have haS'' : (accRows bs e.toNat
          (accRows bs s.toNat accS ((data.drop pos.toNat).take (bs * s).toNat))
          ((data.drop (pos + bs * s + bs * (l - (s + e))).toNat).take
            (bs * e).toNat)).length = bs.toNat := by
        apply accRows_length e.toNat _ _ haS'
        rw [hlen2, toNat_mul_of_nonneg hbs he, Nat.mul_comm]
      simp only [Bool.false_eq_true, if_false]
      exact ih _ _ _ _ hposrec hls htotrec hlenrec haS'' haE

theorem gatherLoop_append_ok {α : Type} [Add α] {bs s e : Int}
    {data : List α} {outer : Int} {twoOut : Bool} :
    ∀ (L₁ L₂ : List Int) (pos total : Int) (accS accE aS aE : List α),
      gatherLoop bs s e data outer twoOut L₁ pos total accS accE
        = .ok (aS, aE) →
      gatherLoop bs s e data outer twoOut (L₁ ++ L₂) pos total accS accE
        = gatherLoop bs s e data outer twoOut L₂ (pos + bs * L₁.sum)
            (total + L₁.sum) aS aE := by
  intro L₁
  induction L₁ with
  | nil =>
    intro L₂ pos total accS accE aS aE h
    rw [gatherLoop] at h
    cases h
    simp
  | cons l ls ih =>
    intro L₂ pos total accS accE aS aE h
    rw [gatherLoop] at h
    rw [List.cons_append, gatherLoop]
    by_cases hc : outer < total + l
    · rw [if_pos hc] at h
      cases h
    · rw [if_neg hc] at h ⊢
      cases hrc1 : readChunk data pos (bs * s) with
      | error err =>
        rw [hrc1] at h
        cases h
      | ok startRows =>
        rw [hrc1] at h
        dsimp only at h ⊢
        cases hrc2 : readChunk data (pos + bs * s + bs * (l - (s + e)))
            (bs * e) with
        | error err =>
          rw [hrc2] at h
          cases h
        | ok endRows =>
          rw [hrc2] at h
          dsimp only at h ⊢
          have e1 : pos + bs * s + bs * (l - (s + e)) + bs * e + bs * ls.sum
              = pos + bs * (l :: ls).sum := by
            rw [List.sum_cons]
            ring
          have e2 : total + l + ls.sum = total + (l :: ls).sum := by
            rw [List.sum_cons]
            ring
          cases twoOut with
          | true =>
            simp only [if_true] at h ⊢
            rw [ih L₂ _ _ _ _ _ _ h, e1, e2]
          | false =>
            simp only [Bool.false_eq_true, if_false] at h ⊢
            rw [ih L₂ _ _ _ _ _ _ h, e1, e2]

/-! ### Round-trip: removing padding from addChunks output recovers the
payload -/

theorem removeLoop_roundtrip {α : Type} [Zero α] {bs s e : Int}
    {padS padE : Option (List α)} {outer : Int}
    (hbs : 0 ≤ bs) (hs : 0 ≤ s) (he : 0 ≤ e)
    (hfS : ∀ p, padS = some p → p.length = bs.toNat)
    (hfE : ∀ p, padE = some p → p.length = bs.toNat) :
    ∀ (L : List Int) (C orig acc : List α) (total : Int),
      (∀ l ∈ L, 0 ≤ l) →
      total + (L.map (· + (s + e))).sum ≤ outer →
      (orig.length : Int) = bs * L.sum →
      removeLoop bs s e (C ++ addChunks bs s e padS padE orig L) outer
          (L.map (· + (s + e))) (C.length : Int) total acc
        = .ok (acc ++ orig) := by
  intro L
  induction L with
  | nil =>
    intro C orig acc total _ _ horig
    have h0 : (orig.length : Int) = 0 := by
      rw [horig]
      simp
    have hnil : orig = [] := List.length_eq_zero.mp (by exact_mod_cast h0)
    subst hnil
    simp [removeLoop]
  | cons l ls ih =>
    intro C orig acc total hL htot horig
    have hl : 0 ≤ l := hL l (by simp)
    have hls0 : ∀ x ∈ ls, 0 ≤ x := fun x hx => hL x (by simp [hx])
    have hsum : 0 ≤ ls.sum := List.sum_nonneg hls0
    have hbl : 0 ≤ bs * l := mul_nonneg hbs hl
    have hbsum : 0 ≤ bs * ls.sum := mul_nonneg hbs hsum
    have hbs' : 0 ≤ bs * s := mul_nonneg hbs hs
    have hbe : 0 ≤ bs * e := mul_nonneg hbs he
    have hnS : (padFill bs s padS).length = (bs * s).toNat :=
      padFill_length hbs hs hfS
    have hnE : (padFill bs e padE).length = (bs * e).toNat :=
      padFill_length hbs he hfE
    have horig' : (orig.length : Int) = bs * l + bs * ls.sum := by
      rw [horig, List.sum_cons]
      ring
    have hple : (bs * l).toNat ≤ orig.length :=
      toNat_le_of_le (by omega)
    have hplen : (orig.take (bs * l).toNat).length = (bs * l).toNat := by
      rw [List.length_take]
      omega
    have hmsum : 0 ≤ (ls.map (· + (s + e))).sum :=
      sum_map_nonneg hls0 (by omega)
    have hmsc : ((l :: ls).map (· + (s + e))).sum
        = (l + (s + e)) + (ls.map (· + (s + e))).sum := by
      rw [List.map_cons, List.sum_cons]
    have hstep : ¬ outer < total + (l + (s + e)) := by
      rw [hmsc] at htot
      omega
    rw [List.map_cons, addChunks, removeLoop]
    have hcnt : bs * (l + (s + e) - e) - bs * s = bs * l := by ring
    rw [hcnt, if_neg hstep]
    -- the read returns exactly the payload of the first segment
    set D := C ++ (padFill bs s padS ++ orig.take (bs * l).toNat ++
      padFill bs e padE ++
      addChunks bs s e padS padE (orig.drop (bs * l).toNat) ls) with hD
    have hofftn : ((C.length : Int) + bs * s).toNat
        = C.length + (bs * s).toNat := by
      rw [Int.toNat_add (Int.natCast_nonneg _) hbs', Int.toNat_natCast]
    have hDsplit : D = (C ++ padFill bs s padS) ++
        (orig.take ((bs * l).toNat) ++ (padFill bs e padE ++
          addChunks bs s e padS padE (orig.drop (bs * l).toNat) ls)) := by
      simp [hD, List.append_assoc]
    have hCS : (C ++ padFill bs s padS).length = C.length + (bs * s).toNat := by
      rw [List.length_append, hnS]
    have hdrop : D.drop ((C.length : Int) + bs * s).toNat
        = orig.take ((bs * l).toNat) ++ (padFill bs e padE ++
          addChunks bs s e padS padE (orig.drop (bs * l).toNat) ls) := by
      rw [hofftn, hDsplit]
      exact List.drop_left' hCS
    have htake : (D.drop ((C.length : Int) + bs * s).toNat).take
        ((bs * l).toNat) = orig.take ((bs * l).toNat) := by
      rw [hdrop]
      exact List.take_left' hplen
    have hDlen : (C.length : Int) + bs * s + bs * l ≤ (D.length : Int) := by
      rw [hDsplit]
      rw [List.length_append, hCS]
      push_cast
      rw [Int.toNat_of_nonneg hbs', List.length_append, hplen]
      push_cast
      rw [Int.toNat_of_nonneg hbl]
      omega
    have hrc := readChunk_eq_ok
      (by have := Int.natCast_nonneg C.length; omega) hbl hDlen
    rw [hrc]
    dsimp only
    rw [htake]
    -- apply the induction hypothesis with the extended prefix
    have hrest : (orig.drop ((bs * l).toNat)).length
        = orig.length - (bs * l).toNat := List.length_drop _ _
    have hrestlen : ((orig.drop ((bs * l).toNat)).length : Int)
        = bs * ls.sum := by
      rw [hrest, Nat.cast_sub hple, Int.toNat_of_nonneg hbl, horig']
      ring
    have hih := ih (C ++ padFill bs s padS ++ orig.take ((bs * l).toNat) ++
        padFill bs e padE) (orig.drop ((bs * l).toNat))
      (acc ++ orig.take ((bs * l).toNat)) (total + (l + (s + e)))
      hls0 (by rw [hmsc] at htot; omega) hrestlen
    have hposeq : ((C ++ padFill bs s padS ++ orig.take ((bs * l).toNat) ++
        padFill bs e padE).length : Int)
        = (C.length : Int) + bs * (l + (s + e)) := by
      simp only [List.length_append, hnS, hnE, hplen]
      push_cast
      rw [Int.toNat_of_nonneg hbs', Int.toNat_of_nonneg hbe,
        Int.toNat_of_nonneg hbl]
      ring
    have hdataeq : C ++ padFill bs s padS ++ orig.take ((bs * l).toNat) ++
        padFill bs e padE ++
        addChunks bs s e padS padE (orig.drop ((bs * l).toNat)) ls = D := by
      simp [hD, List.append_assoc]
    rw [hposeq, hdataeq] at hih
    rw [hih, List.append_assoc, List.take_append_drop]

/-! ### Pointwise algebra of the gather accumulators (integer elements) -/

theorem zipWith_add_map_mul (m n : Int) :
    ∀ (acc p : List Int),
      List.zipWith (· + ·)
          (List.zipWith (· + ·) acc (p.map fun x => m * x))
          (p.map fun x => n * x)
        = List.zipWith (· + ·) acc (p.map fun x => (m + n) * x) := by
  intro acc
  induction acc with
  | nil => intro p; simp
  | cons a as ih =>
    intro p
    cases p with
    | nil => simp
    | cons x xs =>
      simp only [List.map_cons, List.zipWith_cons_cons, List.cons.injEq]
      exact ⟨by ring, ih xs⟩

theorem map_one_mul (p : List Int) : (p.map fun x => (1 : Int) * x) = p := by
  simp

theorem zipWith_add_self_map (n : Int) (acc p : List Int) :
    List.zipWith (· + ·) (List.zipWith (· + ·) acc p) (p.map fun x => n * x)
      = List.zipWith (· + ·) acc (p.map fun x => (1 + n) * x) := by
  have h := zipWith_add_map_mul 1 n acc p
  rw [map_one_mul] at h
  exact h

theorem zipWith_add_map_zero :
    ∀ (acc p : List Int), acc.length = p.length →
      List.zipWith (· + ·) acc (p.map fun x => (0 : Int) * x) = acc := by
  intro acc
  induction acc with
  | nil => intro p _; simp
  | cons a as ih =>
    intro p h
    cases p with
    | nil => simp at h
    | cons x xs =>
      simp only [List.map_cons, List.zipWith_cons_cons, List.cons.injEq]
      refine ⟨by ring, ih xs ?_⟩
      simpa using h

theorem accRows_flatten {bs : Int} :
    ∀ (n : Nat) (acc p : List Int),
      p.length = bs.toNat → acc.length = p.length →
      accRows bs n acc ((List.replicate n p).flatten)
        = List.zipWith (· + ·) acc (p.map fun x => (n : Int) * x) := by
  intro n
  induction n with
  | zero =>
    intro acc p hp ha
    rw [accRows]
    rw [Nat.cast_zero, zipWith_add_map_zero acc p ha]
  | succ n ih =>
    intro acc p hp ha
    rw [List.replicate_succ, List.flatten_cons, accRows,
      List.take_left' hp, List.drop_left' hp]
    have hzw : (List.zipWith (· + ·) acc p).length = p.length := by
      rw [List.length_zipWith, ha]
      omega
    rw [ih (List.zipWith (· + ·) acc p) p hp hzw, zipWith_add_self_map]
    congr 1
    refine List.map_congr_left ?_
    intro x _
    push_cast
    ring

/-! ### Gathering over a buffer built by addChunks with uniform templates -/

theorem gatherLoop_chunks_two {bs s e : Int} {Ts Te : List Int} {outer : Int}
    (hbs : 0 ≤ bs) (hs : 0 ≤ s) (he : 0 ≤ e)
    (hTs : Ts.length = bs.toNat) (hTe : Te.length = bs.toNat) :
    ∀ (L : List Int) (C orig accS accE : List Int) (total : Int),
      (∀ l ∈ L, 0 ≤ l) →
      total + (L.map (· + (s + e))).sum ≤ outer →
      (orig.length : Int) = bs * L.sum →
      accS.length = bs.toNat → accE.length = bs.toNat →
      gatherLoop bs s e (C ++ addChunks bs s e (some Ts) (some Te) orig L)
          outer true (L.map (· + (s + e))) (C.length : Int) total accS accE
        = .ok (List.zipWith (· + ·) accS
              (Ts.map fun x => ((L.length : Int) * s) * x),
            List.zipWith (· + ·) accE
              (Te.map fun x => ((L.length : Int) * e) * x)) := by
  intro L
  induction L with
  | nil =>
    intro C orig accS accE total _ _ _ haS haE
    rw [List.map_nil, gatherLoop]
    have hz1 : ((List.nil (α := Int)).length : Int) * s = 0 := by simp
    have hz2 : ((List.nil (α := Int)).length : Int) * e = 0 := by simp
    rw [hz1, hz2, zipWith_add_map_zero accS Ts (by rw [haS, hTs]),
      zipWith_add_map_zero accE Te (by rw [haE, hTe])]
  | cons l ls ih =>
    intro C orig accS accE total hL htot horig haS haE
    have hl : 0 ≤ l := hL l (by simp)
    have hls0 : ∀ x ∈ ls, 0 ≤ x := fun x hx => hL x (by simp [hx])
    have hsum : 0 ≤ ls.sum := List.sum_nonneg hls0
    have hbl : 0 ≤ bs * l := mul_nonneg hbs hl
    have hbsum : 0 ≤ bs * ls.sum := mul_nonneg hbs hsum
    have hbs' : 0 ≤ bs * s := mul_nonneg hbs hs
    have hbe : 0 ≤ bs * e := mul_nonneg hbs he
    have hfS : ∀ p : List Int, (some Ts : Option (List Int)) = some p →
        p.length = bs.toNat := by
      intro p hp
      cases hp
      exact hTs
    have hfE : ∀ p : List Int, (some Te : Option (List Int)) = some p →
        p.length = bs.toNat := by
      intro p hp
      cases hp
      exact hTe
    have hnS : (padFill bs s (some Ts)).length = (bs * s).toNat :=
      padFill_length hbs hs hfS
    have hnE : (padFill bs e (some Te)).length = (bs * e).toNat :=
      padFill_length hbs he hfE
    have horig' : (orig.length : Int) = bs * l + bs * ls.sum := by
      rw [horig, List.sum_cons]
      ring
    have hple : (bs * l).toNat ≤ orig.length := toNat_le_of_le (by omega)
    have hplen : (orig.take (bs * l).toNat).length = (bs * l).toNat := by
      rw [List.length_take]
      omega
    have hmsum : 0 ≤ (ls.map (· + (s + e))).sum :=
      sum_map_nonneg hls0 (by omega)
    have hmsc : ((l :: ls).map (· + (s + e))).sum
        = (l + (s + e)) + (ls.map (· + (s + e))).sum := by
      rw [List.map_cons, List.sum_cons]
    have hstep : ¬ outer < total + (l + (s + e)) := by
      rw [hmsc] at htot
      omega
    rw [List.map_cons, addChunks, gatherLoop]
    have hmid : bs * (l + (s + e) - (s + e)) = bs * l := by ring
    rw [hmid, if_neg hstep]
    set fillS := padFill bs s (some Ts) with hfSdef
    set fillE := padFill bs e (some Te) with hfEdef
    set payl := orig.take (bs * l).toNat with hpayl
    set rest := addChunks bs s e (some Ts) (some Te)
      (orig.drop (bs * l).toNat) ls with hrest
    set D := C ++ (fillS ++ payl ++ fillE ++ rest) with hD
    -- length bookkeeping
    have hDassoc1 : D = (C ++ fillS) ++ (payl ++ fillE ++ rest) := by
      simp [hD, List.append_assoc]
    have hDassoc2 : D = (C ++ fillS ++ payl) ++ (fillE ++ rest) := by
      simp [hD, List.append_assoc]
    have hDlen : (D.length : Int) = (C.length : Int) + bs * s + bs * l
        + bs * e + (rest.length : Int) := by
      rw [hD]
      simp only [List.length_append, hnS, hnE, hplen]
      push_cast
      rw [Int.toNat_of_nonneg hbs', Int.toNat_of_nonneg hbe,
        Int.toNat_of_nonneg hbl]
      ring
    have hrlen0 : (0 : Int) ≤ (rest.length : Int) := Int.natCast_nonneg _
    have hC0 : (0 : Int) ≤ (C.length : Int) := Int.natCast_nonneg _
    -- first read: exactly the start fill
    have hg1 : (C.length : Int) + bs * s ≤ (D.length : Int) := by linarith
    have hrd1 := readChunk_eq_ok hC0 hbs' hg1
    have hdrop1 : D.drop ((C.length : Int)).toNat
        = fillS ++ (payl ++ fillE ++ rest) := by
      rw [Int.toNat_natCast, hD, List.drop_left' rfl]
      simp [List.append_assoc]
    have htake1 : (D.drop ((C.length : Int)).toNat).take (bs * s).toNat
        = fillS := by
      rw [hdrop1]
      exact List.take_left' hnS
    rw [htake1] at hrd1
    rw [hrd1]
    dsimp only
    -- second read: exactly the end fill
    have hoff2 : (0 : Int) ≤ (C.length : Int) + bs * s + bs * l := by linarith
    have hg2 : (C.length : Int) + bs * s + bs * l + bs * e
        ≤ (D.length : Int) := by linarith
    have hrd2 := readChunk_eq_ok hoff2 hbe hg2
    have hofftn2 : ((C.length : Int) + bs * s + bs * l).toNat
        = C.length + (bs * s).toNat + (bs * l).toNat := by
      rw [Int.toNat_add (by linarith) hbl, Int.toNat_add hC0 hbs',
        Int.toNat_natCast]
    have hdrop2 : D.drop ((C.length : Int) + bs * s + bs * l).toNat
        = fillE ++ rest := by
      rw [hofftn2, hDassoc2]
      refine List.drop_left' ?_
      simp [List.length_append, hnS, hplen, Nat.add_assoc]
    have htake2 : (D.drop ((C.length : Int) + bs * s + bs * l).toNat).take
        (bs * e).toNat = fillE := by
      rw [hdrop2]
      exact List.take_left' hnE
    rw [htake2] at hrd2
    rw [hrd2]
    dsimp only
    simp only [if_true]
    -- accumulator updates
    have haccS : accRows bs s.toNat accS fillS
        = List.zipWith (· + ·) accS (Ts.map fun x => s * x) := by
      rw [hfSdef]
      have hred : padFill bs s (some Ts)
          = (List.replicate s.toNat Ts).flatten := rfl
      rw [hred, accRows_flatten s.toNat accS Ts hTs (by rw [haS, hTs]),
        Int.toNat_of_nonneg hs]
    have haccE : accRows bs e.toNat accE fillE
        = List.zipWith (· + ·) accE (Te.map fun x => e * x) := by
      rw [hfEdef]
      have hred : padFill bs e (some Te)
          = (List.replicate e.toNat Te).flatten := rfl
      rw [hred, accRows_flatten e.toNat accE Te hTe (by rw [haE, hTe]),
        Int.toNat_of_nonneg he]
    rw [haccS, haccE]
    -- recursion via the induction hypothesis
    have hrestlen : ((orig.drop ((bs * l).toNat)).length : Int)
        = bs * ls.sum := by
      rw [List.length_drop, Nat.cast_sub hple, Int.toNat_of_nonneg hbl,
        horig']
      ring
    have haS' : (List.zipWith (· + ·) accS
        (Ts.map fun x => s * x)).length = bs.toNat := by
      rw [List.length_zipWith, List.length_map, haS, hTs]
      omega
    have haE' : (List.zipWith (· + ·) accE
        (Te.map fun x => e * x)).length = bs.toNat := by
      rw [List.length_zipWith, List.length_map, haE, hTe]
      omega
    have hih := ih (C ++ fillS ++ payl ++ fillE) (orig.drop ((bs * l).toNat))
      (List.zipWith (· + ·) accS (Ts.map fun x => s * x))
      (List.zipWith (· + ·) accE (Te.map fun x => e * x))
      (total + (l + (s + e)))
      hls0 (by rw [hmsc] at htot; omega) hrestlen haS' haE'
    have hposeq : ((C ++ fillS ++ payl ++ fillE).length : Int)
        = (C.length : Int) + bs * s + bs * l + bs * e := by
      simp only [List.length_append, hnS, hnE, hplen]
      push_cast
      rw [Int.toNat_of_nonneg hbs', Int.toNat_of_nonneg hbe,
        Int.toNat_of_nonneg hbl]
    have hdataeq : C ++ fillS ++ payl ++ fillE ++ rest = D := by
      simp [hD, List.append_assoc]
    rw [hposeq, hdataeq] at hih
    rw [hih]
    rw [zipWith_add_map_mul s ((ls.length : Int) * s) accS Ts,
      zipWith_add_map_mul e ((ls.length : Int) * e) accE Te]
    congr 2
    · congr 1
      refine List.map_congr_left ?_
      intro x _
      rw [List.length_cons]
      push_cast
      ring
    · congr 1
      refine List.map_congr_left ?_
      intro x _
      rw [List.length_cons]
      push_cast
      ring

theorem gatherLoop_chunks_one {bs s e : Int} {T : List Int} {outer : Int}
    (hbs : 0 ≤ bs) (hs : 0 ≤ s) (he : 0 ≤ e)
    (hT : T.length = bs.toNat) :
    ∀ (L : List Int) (C orig accS accE : List Int) (total : Int),
      (∀ l ∈ L, 0 ≤ l) →
      total + (L.map (· + (s + e))).sum ≤ outer →
      (orig.length : Int) = bs * L.sum →
      accS.length = bs.toNat →
      gatherLoop bs s e (C ++ addChunks bs s e (some T) (some T) orig L)
          outer false (L.map (· + (s + e))) (C.length : Int) total accS accE
        = .ok (List.zipWith (· + ·) accS
            (T.map fun x => ((L.length : Int) * (s + e)) * x), accE) := by
  intro L
  induction L with
  | nil =>
    intro C orig accS accE total _ _ _ haS
    rw [List.map_nil, gatherLoop]
    have hz1 : ((List.nil (α := Int)).length : Int) * (s + e) = 0 := by simp
    rw [hz1, zipWith_add_map_zero accS T (by rw [haS, hT])]
  | cons l ls ih =>
    intro C orig accS accE total hL htot horig haS
    have hl : 0 ≤ l := hL l (by simp)
    have hls0 : ∀ x ∈ ls, 0 ≤ x := fun x hx => hL x (by simp [hx])
    have hsum : 0 ≤ ls.sum := List.sum_nonneg hls0
    have hbl : 0 ≤ bs * l := mul_nonneg hbs hl
    have hbsum : 0 ≤ bs * ls.sum := mul_nonneg hbs hsum
    have hbs' : 0 ≤ bs * s := mul_nonneg hbs hs
    have hbe : 0 ≤ bs * e := mul_nonneg hbs he
    have hfT : ∀ p : List Int, (some T : Option (List Int)) = some p →
        p.length = bs.toNat := by
      intro p hp
      cases hp
      exact hT
    have hnS : (padFill bs s (some T)).length = (bs * s).toNat :=
      padFill_length hbs hs hfT
    have hnE : (padFill bs e (some T)).length = (bs * e).toNat :=
      padFill_length hbs he hfT
    have horig' : (orig.length : Int) = bs * l + bs * ls.sum := by
      rw [horig, List.sum_cons]
      ring
    have hple : (bs * l).toNat ≤ orig.length := toNat_le_of_le (by omega)
    have hplen : (orig.take (bs * l).toNat).length = (bs * l).toNat := by
      rw [List.length_take]
      omega
    have hmsum : 0 ≤ (ls.map (· + (s + e))).sum :=
      sum_map_nonneg hls0 (by omega)
    have hmsc : ((l :: ls).map (· + (s + e))).sum
        = (l + (s + e)) + (ls.map (· + (s + e))).sum := by
      rw [List.map_cons, List.sum_cons]
    have hstep : ¬ outer < total + (l + (s + e)) := by
      rw [hmsc] at htot
      omega
    rw [List.map_cons, addChunks, gatherLoop]
    have hmid : bs * (l + (s + e) - (s + e)) = bs * l := by ring
    rw [hmid, if_neg hstep]
    set fillS := padFill bs s (some T) with hfSdef
    set fillE := padFill bs e (some T) with hfEdef
    set payl := orig.take (bs * l).toNat with hpayl
    set rest := addChunks bs s e (some T) (some T)
      (orig.drop (bs * l).toNat) ls with hrest
    set D := C ++ (fillS ++ payl ++ fillE ++ rest) with hD
    have hDassoc2 : D = (C ++ fillS ++ payl) ++ (fillE ++ rest) := by
      simp [hD, List.append_assoc]
    have hDlen : (D.length : Int) = (C.length : Int) + bs * s + bs * l
        + bs * e + (rest.length : Int) := by
      rw [hD]
      simp only [List.length_append, hnS, hnE, hplen]
      push_cast
      rw [Int.toNat_of_nonneg hbs', Int.toNat_of_nonneg hbe,
        Int.toNat_of_nonneg hbl]
      ring
    have hrlen0 : (0 : Int) ≤ (rest.length : Int) := Int.natCast_nonneg _
    have hC0 : (0 : Int) ≤ (C.length : Int) := Int.natCast_nonneg _
    have hg1 : (C.length : Int) + bs * s ≤ (D.length : Int) := by linarith
    have hrd1 := readChunk_eq_ok hC0 hbs' hg1
    have hdrop1 : D.drop ((C.length : Int)).toNat
        = fillS ++ (payl ++ fillE ++ rest) := by
      rw [Int.toNat_natCast, hD, List.drop_left' rfl]
      simp [List.append_assoc]
    have htake1 : (D.drop ((C.length : Int)).toNat).take (bs * s).toNat
        = fillS := by
      rw [hdrop1]
      exact List.take_left' hnS
    rw [htake1] at hrd1
    rw [hrd1]
    dsimp only
    have hoff2 : (0 : Int) ≤ (C.length : Int) + bs * s + bs * l := by linarith
    have hg2 : (C.length : Int) + bs * s + bs * l + bs * e
        ≤ (D.length : Int) := by linarith
    have hrd2 := readChunk_eq_ok hoff2 hbe hg2
    have hofftn2 : ((C.length : Int) + bs * s + bs * l).toNat
        = C.length + (bs * s).toNat + (bs * l).toNat := by
      rw [Int.toNat_add (by linarith) hbl, Int.toNat_add hC0 hbs',
        Int.toNat_natCast]
    have hdrop2 : D.drop ((C.length : Int) + bs * s + bs * l).toNat
        = fillE ++ rest := by
      rw [hofftn2, hDassoc2]
      refine List.drop_left' ?_
      simp [List.length_append, hnS, hplen, Nat.add_assoc]
    have htake2 : (D.drop ((C.length : Int) + bs * s + bs * l).toNat).take
        (bs * e).toNat = fillE := by
      rw [hdrop2]
      exact List.take_left' hnE
    rw [htake2] at hrd2
    rw [hrd2]
    dsimp only
    simp only [Bool.false_eq_true, if_false]
    have haccS : accRows bs s.toNat accS fillS
        = List.zipWith (· + ·) accS (T.map fun x => s * x) := by
      rw [hfSdef]
      have hred : padFill bs s (some T)
          = (List.replicate s.toNat T).flatten := rfl
      rw [hred, accRows_flatten s.toNat accS T hT (by rw [haS, hT]),
        Int.toNat_of_nonneg hs]
    have haS' : (List.zipWith (· + ·) accS
        (T.map fun x => s * x)).length = bs.toNat := by
      rw [List.length_zipWith, List.length_map, haS, hT]
      omega
    have haccS2 : accRows bs e.toNat
        (List.zipWith (· + ·) accS (T.map fun x => s * x)) fillE
        = List.zipWith (· + ·) accS (T.map fun x => (s + e) * x) := by
      rw [hfEdef]
      have hred : padFill bs e (some T)
          = (List.replicate e.toNat T).flatten := rfl
      rw [hred, accRows_flatten e.toNat _ T hT (by rw [haS', hT]),
        Int.toNat_of_nonneg he, zipWith_add_map_mul]
    rw [haccS, haccS2]
    have hrestlen : ((orig.drop ((bs * l).toNat)).length : Int)
        = bs * ls.sum := by
      rw [List.length_drop, Nat.cast_sub hple, Int.toNat_of_nonneg hbl,
        horig']
      ring
    have haS2len : (List.zipWith (· + ·) accS
        (T.map fun x => (s + e) * x)).length = bs.toNat := by
      rw [List.length_zipWith, List.length_map, haS, hT]
      omega
    have hih := ih (C ++ fillS ++ payl ++ fillE) (orig.drop ((bs * l).toNat))
      (List.zipWith (· + ·) accS (T.map fun x => (s + e) * x)) accE
      (total + (l + (s + e)))
      hls0 (by rw [hmsc] at htot; omega) hrestlen haS2len
    have hposeq : ((C ++ fillS ++ payl ++ fillE).length : Int)
        = (C.length : Int) + bs * s + bs * l + bs * e := by
      simp only [List.length_append, hnS, hnE, hplen]
      push_cast
      rw [Int.toNat_of_nonneg hbs', Int.toNat_of_nonneg hbe,
        Int.toNat_of_nonneg hbl]
    have hdataeq : C ++ fillS ++ payl ++ fillE ++ rest = D := by
      simp [hD, List.append_assoc]
    rw [hposeq, hdataeq] at hih
    rw [hih]
    rw [zipWith_add_map_mul (s + e) ((ls.length : Int) * (s + e)) accS T]
    congr 3
    refine List.map_congr_left ?_
    intro x _
    rw [List.length_cons]
    push_cast
    ring

/-! ### Kernel-level assembly lemmas -/

theorem addPaddingFull_ok {α : Type} [Zero α] {s e : Int} {d0 : Int}
    {rest : List Int} {dataL : List α} {L : List Int}
    {templates : List (Tensor α)} {padS padE : Option (List α)}
    (twoOutputs : Bool)
    (hres : resolveTemplates templates (blockSize rest) = .ok (padS, padE))
    (hbs : 0 ≤ blockSize rest) (hs : 0 ≤ s) (he : 0 ≤ e)
    (hL : ∀ l ∈ L, 0 ≤ l)
    (hsum : L.sum ≤ d0)
    (hlen : blockSize rest * L.sum ≤ (dataL.length : Int)) :
    addPaddingFull s e ⟨d0 :: rest, dataL⟩ (some L) templates twoOutputs
      = .ok (⟨(d0 + (s + e) * (L.length : Int)) :: rest,
          addChunks (blockSize rest) s e padS padE dataL L⟩,
        if twoOutputs then some (L.map (· + (s + e))) else none) := by
  have h1 : (0 : Int) + L.sum ≤ d0 := by omega
  have h2 : (0 : Int) + blockSize rest * L.sum ≤ (dataL.length : Int) := by
    omega
  have hloop := @addLoop_ok α _ (blockSize rest) s e padS padE dataL d0
    hbs hs he L 0 0 [] le_rfl hL h1 h2
  rw [addPaddingFull]
  dsimp only
  rw [hres]
  dsimp only
  rw [hloop]
  dsimp only
  rw [Int.toNat_zero, List.drop_zero, List.nil_append]

theorem removePaddingFull_ok {α : Type} {s e : Int} {d0 : Int}
    {rest : List Int} {dataL : List α} {L : List Int} (twoOutputs : Bool)
    (hbs : 0 ≤ blockSize rest) (hs : 0 ≤ s) (he : 0 ≤ e)
    (hL : ∀ l ∈ L, s + e ≤ l)
    (hsum : L.sum ≤ d0)
    (hlen : blockSize rest * L.sum ≤ (dataL.length : Int)) :
    ∃ w : List α,
      removePaddingFull s e ⟨d0 :: rest, dataL⟩ (some L) twoOutputs
        = .ok (⟨(d0 - (s + e) * (L.length : Int)) :: rest, w⟩,
            if twoOutputs then some (L.map (· - (s + e))) else none)
      ∧ (w.length : Int)
          = blockSize rest * (L.sum - (s + e) * (L.length : Int)) := by
  have h1 : (0 : Int) + L.sum ≤ d0 := by omega
  have h2 : (0 : Int) + blockSize rest * L.sum ≤ (dataL.length : Int) := by
    omega
  obtain ⟨w, hw, hwlen⟩ := removeLoop_ok hbs hs he L 0 0 ([] : List α)
    le_rfl hL h1 h2
  refine ⟨w, ?_, hwlen⟩
  rw [removePaddingFull]
  dsimp only
  rw [hw]
  dsimp only
  rw [List.nil_append]

theorem gatherPaddingFull_ok {α : Type} [Zero α] [Add α] {s e : Int}
    {d0 : Int} {rest : List Int} {dataL : List α} {L : List Int}
    (twoOutputs : Bool)
    (hbs : 0 ≤ blockSize rest) (hs : 0 ≤ s) (he : 0 ≤ e)
    (hL : ∀ l ∈ L, s + e ≤ l)
    (hsum : L.sum ≤ d0)
    (hlen : blockSize rest * L.sum ≤ (dataL.length : Int)) :
    ∃ g0 g1 : List α,
      gatherPaddingFull s e ⟨d0 :: rest, dataL⟩ (some L) twoOutputs
        = .ok (⟨rest, g0⟩, if twoOutputs then some ⟨rest, g1⟩ else none)
      ∧ g0.length = (blockSize rest).toNat
      ∧ g1.length = (blockSize rest).toNat := by
  have h1 : (0 : Int) + L.sum ≤ d0 := by omega
  have h2 : (0 : Int) + blockSize rest * L.sum ≤ (dataL.length : Int) := by
    omega
  obtain ⟨aS, aE, hloop, haS, haE⟩ :=
    @gatherLoop_ok α _ (blockSize rest) s e dataL d0 twoOutputs
      hbs hs he L 0 0
      (List.replicate (blockSize rest).toNat (0 : α))
      (List.replicate (blockSize rest).toNat (0 : α))
      le_rfl hL h1 h2
      (List.length_replicate _ _) (List.length_replicate _ _)
  refine ⟨aS, aE, ?_, haS, haE⟩
  rw [gatherPaddingFull]
  dsimp only
  rw [hloop]

/-! ### Additional helpers for the claim theorems -/

theorem resolveTemplates_length {α : Type} {templates : List (Tensor α)}
    {bs : Int} {padS padE : Option (List α)}
    (hres : resolveTemplates templates bs = .ok (padS, padE))
    (htmpl : ∀ t ∈ templates, (t.data.length : Int) = t.size) :
    (∀ p, padS = some p → p.length = bs.toNat)
    ∧ (∀ p, padE = some p → p.length = bs.toNat) := by
  cases templates with
  | nil =>
    rw [resolveTemplates] at hres
    cases hres
    refine ⟨fun p hp => ?_, fun p hp => ?_⟩ <;> cases hp
  | cons t0 ts =>
    cases ts with
    | nil =>
      rw [resolveTemplates] at hres
      by_cases h0 : bs = t0.size
      · rw [if_pos h0] at hres
        cases hres
        have hlen : (t0.data.length : Int) = bs := by
          rw [htmpl t0 (by simp), h0]
        constructor <;> (intro p hp; cases hp; omega)
      · rw [if_neg h0] at hres
        cases hres
    | cons t1 ts' =>
      rw [resolveTemplates] at hres
      by_cases h0 : bs = t0.size
      · rw [if_pos h0] at hres
        by_cases h1 : bs = t1.size
        · rw [if_pos h1] at hres
          cases hres
          have hlen0 : (t0.data.length : Int) = bs := by
            rw [htmpl t0 (by simp), h0]
          have hlen1 : (t1.data.length : Int) = bs := by
            rw [htmpl t1 (by simp), h1]
          constructor <;> (intro p hp; cases hp; omega)
        · rw [if_neg h1] at hres
          cases hres
      · rw [if_neg h0] at hres
        cases hres

theorem zipWith_replicate_zero_add :
    ∀ (v : List Int) (n : Nat), v.length = n →
      List.zipWith (· + ·) (List.replicate n (0 : Int)) v = v := by
  intro v
  induction v with
  | nil => intro n _; simp
  | cons x xs ih =>
    intro n hn
    cases n with
    | zero => simp at hn
    | succ m =>
      rw [List.replicate_succ, List.zipWith_cons_cons, zero_add,
        ih m (by simpa using hn)]

/-! ### Claim theorems -/

/-- C6: with widths (0, 0) both AddPadding and RemovePadding are exact
copies of the input buffer, and of the input lengths when a second output is
requested. -/
theorem C6_zero_width_identity {α : Type} [Zero α] (inT : Tensor α)
    (L : List Int) (lengthsIn : Option (List Int))
    (templates : List (Tensor α)) :
    addPaddingRun 0 0 inT (some L) templates true = .ok (inT, some L)
    ∧ addPaddingRun 0 0 inT lengthsIn templates false = .ok (inT, none)
    ∧ removePaddingRun 0 0 inT (some L) true = .ok (inT, some L)
    ∧ removePaddingRun 0 0 inT lengthsIn false = .ok (inT, none) := by
  refine ⟨?_, ?_, ?_, ?_⟩ <;> simp [addPaddingRun, removePaddingRun]

/-- C10: with widths (0, 0) the operator-level fast path performs no
validation at all: even lengths that overrun the row count and templates
whose block size mismatches the buffer's are accepted, and the inputs are
copied through verbatim. -/
theorem C10_zero_width_no_validation {α : Type} [Zero α] (inT : Tensor α)
    (L : List Int) (templates : List (Tensor α)) (d0 : Int)
    (rest : List Int) (t : Tensor α)
    (hd : inT.dims = d0 :: rest)
    (hover : d0 < L.sum)
    (ht : t ∈ templates)
    (hbad : t.size ≠ blockSize rest) :
    addPaddingRun 0 0 inT (some L) templates true = .ok (inT, some L)
    ∧ removePaddingRun 0 0 inT (some L) true = .ok (inT, some L) := by
  constructor <;> simp [addPaddingRun, removePaddingRun]

/-- C10 witness: a buffer of one row, lengths summing to 5 > 1, and a
template of block size 2 against a buffer block size of 1: both zero-width
operators still copy the inputs verbatim. -/
theorem C10_zero_width_no_validation_witness :
    addPaddingRun 0 0 (⟨[1], [7]⟩ : Tensor Int) (some [5])
        [(⟨[2], [1, 2]⟩ : Tensor Int)] true
      = .ok (⟨[1], [7]⟩, some [5])
    ∧ removePaddingRun 0 0 (⟨[1], [7]⟩ : Tensor Int) (some [5]) true
      = .ok (⟨[1], [7]⟩, some [5]) :=
  C10_zero_width_no_validation ⟨[1], [7]⟩ [5] [⟨[2], [1, 2]⟩] 1 []
    ⟨[2], [1, 2]⟩ rfl (by decide) (by simp) (by decide)

/-- C3 counterexample: GatherPadding invoked with widths (0, 0) on a buffer
of block size 2 succeeds but returns an output resized to an empty dims
vector with no data written — not an all-zero accumulator vector of length
block_size. -/
theorem C3_zero_width_gather_counterexample :
    gatherPaddingRun 0 0 (⟨[1, 2], [5, 7]⟩ : Tensor Int) (some [1]) false
      = .ok (⟨[], []⟩, none)
    ∧ ([] : List Int) ≠ List.replicate (blockSize [2]).toNat (0 : Int) := by
  constructor
  · rfl
  · decide

/-- C3 amended: with widths (0, 0) GatherPadding succeeds, but each
requested output is merely resized to an empty shape and no element of it is
written (the all-zero block-sized accumulator is produced only by the typed
kernel, which the zero-width fast path bypasses). -/
theorem C3_zero_width_gather_amended {α : Type} [Zero α] [Add α]
    (inT : Tensor α) (lengthsIn : Option (List Int))
    (twoOutputs : Bool) :
    gatherPaddingRun 0 0 inT lengthsIn twoOutputs
      = .ok (⟨[], []⟩, if twoOutputs then some ⟨[], []⟩ else none) := by
  simp [gatherPaddingRun]

/-- C8 counterexample: the registered GatherPadding schema demands exactly
two inputs, so an invocation carrying only the data buffer is rejected by
the framework even though the kernel could handle it. -/
theorem C8_gather_lengths_required_counterexample :
    schemaAccepts gatherPaddingNumInputs 1 = false := by decide

/-- C8 amended: the lengths input is optional for AddPadding and
RemovePadding — their schemas accept a single input and all three kernels
fall back to one implicit segment spanning all `d0` rows — but
GatherPadding's registered schema requires the lengths input (exactly two
inputs), so only two of the three operations accept a data-only
invocation. -/
theorem C8_lengths_optional_amended {α : Type} [Zero α] [Add α]
    (s e : Int) (inT : Tensor α) (templates : List (Tensor α))
    (twoOutputs : Bool) (d0 : Int) (rest : List Int)
    (hd : inT.dims = d0 :: rest) :
    schemaAccepts addPaddingNumInputs 1 = true
    ∧ schemaAccepts removePaddingNumInputs 1 = true
    ∧ schemaAccepts gatherPaddingNumInputs 1 = false
    ∧ schemaAccepts gatherPaddingNumInputs 2 = true
    ∧ addPaddingFull s e inT none templates twoOutputs
        = addPaddingFull s e inT (some [d0]) templates twoOutputs
    ∧ removePaddingFull s e inT none twoOutputs
        = removePaddingFull s e inT (some [d0]) twoOutputs
    ∧ gatherPaddingFull s e inT none twoOutputs
        = gatherPaddingFull s e inT (some [d0]) twoOutputs := by
  obtain ⟨dims, dataL⟩ := inT
  dsimp only at hd
  subst hd
  exact ⟨by decide, by decide, by decide, by decide, rfl, rfl, rfl⟩

/-- C8 witness: the amended statement at a concrete 2-row buffer. -/
theorem C8_lengths_optional_amended_witness :
    schemaAccepts addPaddingNumInputs 1 = true
    ∧ schemaAccepts removePaddingNumInputs 1 = true
    ∧ schemaAccepts gatherPaddingNumInputs 1 = false
    ∧ schemaAccepts gatherPaddingNumInputs 2 = true
    ∧ addPaddingFull 1 1 (⟨[2], [3, 4]⟩ : Tensor Int) none [] false
        = addPaddingFull 1 1 (⟨[2], [3, 4]⟩ : Tensor Int) (some [2]) [] false
    ∧ removePaddingFull 1 1 (⟨[2], [3, 4]⟩ : Tensor Int) none false
        = removePaddingFull 1 1 (⟨[2], [3, 4]⟩ : Tensor Int) (some [2]) false
    ∧ gatherPaddingFull 1 1 (⟨[2], [3, 4]⟩ : Tensor Int) none false
        = gatherPaddingFull 1 1 (⟨[2], [3, 4]⟩ : Tensor Int) (some [2])
            false :=
  C8_lengths_optional_amended 1 1 ⟨[2], [3, 4]⟩ [] false 2 [] rfl

/-- C5: on a valid input the AddPadding kernel produces a buffer whose
leading dimension is `N + (s+e)*num_segments` together with lengths each
increased by `s+e`, and the RemovePadding kernel produces
`N - (s+e)*num_segments` rows together with lengths each decreased by
`s+e`. -/
theorem C5_length_conservation {α : Type} [Zero α] (s e d0 : Int)
    (rest : List Int) (dataL : List α) (L : List Int)
    (templates : List (Tensor α)) (padS padE : Option (List α))
    (hres : resolveTemplates templates (blockSize rest) = .ok (padS, padE))
    (hbs : 0 ≤ blockSize rest) (hs : 0 ≤ s) (he : 0 ≤ e)
    (hL : ∀ x ∈ L, s + e ≤ x)
    (hsum : L.sum = d0)
    (hlen : (dataL.length : Int) = blockSize rest * d0) :
    (∃ D : List α,
      addPaddingFull s e ⟨d0 :: rest, dataL⟩ (some L) templates true
        = .ok (⟨(d0 + (s + e) * (L.length : Int)) :: rest, D⟩,
            some (L.map (· + (s + e)))))
    ∧ (∃ D' : List α,
      removePaddingFull s e ⟨d0 :: rest, dataL⟩ (some L) true
        = .ok (⟨(d0 - (s + e) * (L.length : Int)) :: rest, D'⟩,
            some (L.map (· - (s + e))))) := by
  have hL0 : ∀ x ∈ L, 0 ≤ x := fun x hx => by have := hL x hx; omega
  have hlen' : blockSize rest * L.sum ≤ (dataL.length : Int) := by
    rw [hsum, hlen]
  constructor
  · have h := addPaddingFull_ok true hres hbs hs he hL0 (le_of_eq hsum) hlen'
    refine ⟨addChunks (blockSize rest) s e padS padE dataL L, ?_⟩
    rw [h]
    simp
  · obtain ⟨w, hw, _⟩ :=
      removePaddingFull_ok true hbs hs he hL (le_of_eq hsum) hlen'
    refine ⟨w, ?_⟩
    rw [hw]
    simp

/-- C5 witness: the spec's concrete scenario, 6 rows, lengths [3, 3],
widths (1, 0). -/
theorem C5_length_conservation_witness :
    (∃ D : List Int,
      addPaddingFull 1 0 (⟨[6], [1, 2, 3, 4, 5, 6]⟩ : Tensor Int)
          (some [3, 3]) [] true = .ok (⟨[8], D⟩, some [4, 4]))
    ∧ (∃ D' : List Int,
      removePaddingFull 1 0 (⟨[6], [1, 2, 3, 4, 5, 6]⟩ : Tensor Int)
          (some [3, 3]) true = .ok (⟨[4], D'⟩, some [2, 2])) :=
  C5_length_conservation 1 0 6 [] [1, 2, 3, 4, 5, 6] [3, 3] [] none none
    rfl (by decide) (by decide) (by decide) (by decide) (by decide)
    (by decide)

/-- C7: inputs whose running length prefix sums never exceed the row count
are accepted even when the total is strictly below it — no final
total-equality check exists, so all three kernels succeed on under-sum
lengths. -/
theorem C7_under_sum_accepted {α : Type} [Zero α] [Add α] (s e d0 : Int)
    (rest : List Int) (dataL : List α) (L : List Int)
    (templates : List (Tensor α)) (padS padE : Option (List α))
    (twoOutputs : Bool)
    (hres : resolveTemplates templates (blockSize rest) = .ok (padS, padE))
    (hbs : 0 ≤ blockSize rest) (hs : 0 ≤ s) (he : 0 ≤ e)
    (hL : ∀ x ∈ L, s + e ≤ x)
    (hsum : L.sum < d0)
    (hlen : (dataL.length : Int) = blockSize rest * d0) :
    (∃ out, addPaddingFull s e ⟨d0 :: rest, dataL⟩ (some L) templates
        twoOutputs = .ok out)
    ∧ (∃ out, removePaddingFull s e ⟨d0 :: rest, dataL⟩ (some L)
        twoOutputs = .ok out)
    ∧ (∃ out, gatherPaddingFull s e ⟨d0 :: rest, dataL⟩ (some L)
        twoOutputs = .ok out) := by
  have hL0 : ∀ x ∈ L, 0 ≤ x := fun x hx => by have := hL x hx; omega
  have hsum' : L.sum ≤ d0 := le_of_lt hsum
  have hlen' : blockSize rest * L.sum ≤ (dataL.length : Int) := by
    rw [hlen]
    exact mul_le_mul_of_nonneg_left hsum' hbs
  refine ⟨⟨_, addPaddingFull_ok twoOutputs hres hbs hs he hL0 hsum' hlen'⟩, ?_, ?_⟩
  · obtain ⟨w, hw, _⟩ := removePaddingFull_ok twoOutputs hbs hs he hL hsum' hlen'
    exact ⟨_, hw⟩
  · obtain ⟨g0, g1, hg, _, _⟩ := gatherPaddingFull_ok twoOutputs hbs hs he hL hsum' hlen'
    exact ⟨_, hg⟩

/-- C7 witness: lengths [2, 2] on a 6-row buffer (total 4 < 6) with widths
(1, 0): all three kernels succeed. -/
theorem C7_under_sum_accepted_witness :
    (∃ out, addPaddingFull 1 0 (⟨[6], [1, 2, 3, 4, 5, 6]⟩ : Tensor Int)
        (some [2, 2]) [] false = .ok out)
    ∧ (∃ out, removePaddingFull 1 0 (⟨[6], [1, 2, 3, 4, 5, 6]⟩ : Tensor Int)
        (some [2, 2]) false = .ok out)
    ∧ (∃ out, gatherPaddingFull 1 0 (⟨[6], [1, 2, 3, 4, 5, 6]⟩ : Tensor Int)
        (some [2, 2]) false = .ok out) :=
  C7_under_sum_accepted 1 0 6 [] [1, 2, 3, 4, 5, 6] [2, 2] [] none none
    false rfl (by decide) (by decide) (by decide) (by decide) (by decide)
    (by decide)

/-- C9: when every segment length is at least `pad_width = s + e` and the
running prefix sums stay within the row count, the RemovePadding and
GatherPadding kernels stay entirely in bounds: the out-of-bounds branch of
the embedding is never taken (both return `.ok`), RemovePadding writes no
more elements than its declared output size, and GatherPadding's
accumulator stays exactly `block_size` long. -/
theorem C9_remove_gather_in_bounds {α : Type} [Zero α] [Add α] (s e d0 : Int)
    (rest : List Int) (dataL : List α) (L : List Int) (twoOutputs : Bool)
    (hbs : 0 ≤ blockSize rest) (hs : 0 ≤ s) (he : 0 ≤ e)
    (hL : ∀ x ∈ L, s + e ≤ x)
    (hsum : L.sum ≤ d0)
    (hlen : (dataL.length : Int) = blockSize rest * d0) :
    (∃ out lout,
      removePaddingFull s e ⟨d0 :: rest, dataL⟩ (some L) twoOutputs
        = .ok (out, lout)
      ∧ (out.data.length : Int)
          ≤ blockSize rest * (d0 - (s + e) * (L.length : Int)))
    ∧ (∃ g0 g1m,
      gatherPaddingFull s e ⟨d0 :: rest, dataL⟩ (some L) twoOutputs
        = .ok (g0, g1m)
      ∧ g0.data.length = (blockSize rest).toNat) := by
  have hlen' : blockSize rest * L.sum ≤ (dataL.length : Int) := by
    rw [hlen]
    exact mul_le_mul_of_nonneg_left hsum hbs
  constructor
  · obtain ⟨w, hw, hwlen⟩ := removePaddingFull_ok twoOutputs hbs hs he hL hsum hlen'
    refine ⟨_, _, hw, ?_⟩
    dsimp only
    rw [hwlen]
    have hmono : L.sum - (s + e) * (L.length : Int)
        ≤ d0 - (s + e) * (L.length : Int) := by omega
    exact mul_le_mul_of_nonneg_left hmono hbs
  · obtain ⟨g0, g1, hg, hg0, _⟩ := gatherPaddingFull_ok twoOutputs hbs hs he hL hsum hlen'
    exact ⟨_, _, hg, hg0⟩

/-- C9 witness: lengths [2, 2] on a 4-row buffer with widths (1, 1): both
kernels succeed within bounds. -/
theorem C9_remove_gather_in_bounds_witness :
    (∃ out lout,
      removePaddingFull 1 1 (⟨[4], [1, 2, 3, 4]⟩ : Tensor Int)
          (some [2, 2]) true = .ok (out, lout)
      ∧ (out.data.length : Int) ≤ blockSize [] * (4 - (1 + 1) * 2))
    ∧ (∃ g0 g1m,
      gatherPaddingFull 1 1 (⟨[4], [1, 2, 3, 4]⟩ : Tensor Int)
          (some [2, 2]) true = .ok (g0, g1m)
      ∧ g0.data.length = (blockSize []).toNat) :=
  C9_remove_gather_in_bounds 1 1 4 [] [1, 2, 3, 4] [2, 2] true
    (by decide) (by decide) (by decide) (by decide) (by decide) (by decide)

/-- C2: when some prefix of the lengths overruns the row count, each of the
three kernels signals `lengthOverrun`; moreover the per-segment loops abort
at the offending segment carrying exactly the output written for the
preceding segments — the offending segment's rows (and later ones) are
never written. -/
theorem C2_overrun_rejected {α : Type} [Zero α] [Add α] (s e d0 : Int)
    (rest : List Int) (dataL : List α) (L₁ L₂ : List Int) (l : Int)
    (templates : List (Tensor α)) (padS padE : Option (List α))
    (twoOutputs : Bool)
    (hres : resolveTemplates templates (blockSize rest) = .ok (padS, padE))
    (hbs : 0 ≤ blockSize rest) (hs : 0 ≤ s) (he : 0 ≤ e)
    (hL : ∀ x ∈ L₁, s + e ≤ x)
    (hpre : L₁.sum ≤ d0)
    (hbad : d0 < L₁.sum + l)
    (hlen : (dataL.length : Int) = blockSize rest * d0) :
    addPaddingFull s e ⟨d0 :: rest, dataL⟩ (some (L₁ ++ l :: L₂)) templates
        twoOutputs = .error .lengthOverrun
    ∧ removePaddingFull s e ⟨d0 :: rest, dataL⟩ (some (L₁ ++ l :: L₂))
        twoOutputs = .error .lengthOverrun
    ∧ gatherPaddingFull s e ⟨d0 :: rest, dataL⟩ (some (L₁ ++ l :: L₂))
        twoOutputs = .error .lengthOverrun
    ∧ (∃ w, addLoop (blockSize rest) s e padS padE dataL d0
          (L₁ ++ l :: L₂) 0 0 [] = .error (.lengthOverrun, w)
        ∧ addLoop (blockSize rest) s e padS padE dataL d0 L₁ 0 0 []
          = .ok w)
    ∧ (∃ w, removeLoop (blockSize rest) s e dataL d0 (L₁ ++ l :: L₂) 0 0 []
          = .error (.lengthOverrun, w)
        ∧ removeLoop (blockSize rest) s e dataL d0 L₁ 0 0 [] = .ok w)
    ∧ (∃ aS aE, gatherLoop (blockSize rest) s e dataL d0 twoOutputs
          (L₁ ++ l :: L₂) 0 0
          (List.replicate (blockSize rest).toNat 0)
          (List.replicate (blockSize rest).toNat 0)
          = .error (.lengthOverrun, aS, aE)
        ∧ gatherLoop (blockSize rest) s e dataL d0 twoOutputs L₁ 0 0
          (List.replicate (blockSize rest).toNat 0)
          (List.replicate (blockSize rest).toNat 0) = .ok (aS, aE)) := by
  have hL0 : ∀ x ∈ L₁, 0 ≤ x := fun x hx => by have := hL x hx; omega
  have h1 : (0 : Int) + L₁.sum ≤ d0 := by omega
  have h2 : (0 : Int) + blockSize rest * L₁.sum ≤ (dataL.length : Int) := by
    rw [hlen]
    have := mul_le_mul_of_nonneg_left hpre hbs
    omega
  have hcond : d0 < 0 + L₁.sum + l := by omega
  -- AddPadding
  have haddL1 := @addLoop_ok α _ (blockSize rest) s e padS padE dataL d0
    hbs hs he L₁ 0 0 [] le_rfl hL0 h1 h2
  simp only [Int.toNat_zero, List.drop_zero, List.nil_append] at haddL1
  have haddfull : addLoop (blockSize rest) s e padS padE dataL d0
      (L₁ ++ l :: L₂) 0 0 []
      = .error (.lengthOverrun,
          addChunks (blockSize rest) s e padS padE dataL L₁) := by
    rw [addLoop_append_ok L₁ (l :: L₂) 0 0 [] _ haddL1, addLoop,
      if_pos hcond]
  -- RemovePadding
  obtain ⟨wR, hremL1, _⟩ := @removeLoop_ok α (blockSize rest) s e dataL d0
    hbs hs he L₁ 0 0 [] le_rfl hL h1 h2
  rw [List.nil_append] at hremL1
  have hremfull : removeLoop (blockSize rest) s e dataL d0
      (L₁ ++ l :: L₂) 0 0 [] = .error (.lengthOverrun, wR) := by
    rw [removeLoop_append_ok L₁ (l :: L₂) 0 0 [] _ hremL1, removeLoop,
      if_pos hcond]
  -- GatherPadding
  obtain ⟨aS, aE, hgatL1, _, _⟩ := @gatherLoop_ok α _ (blockSize rest) s e
    dataL d0 twoOutputs hbs hs he L₁ 0 0
    (List.replicate (blockSize rest).toNat 0)
    (List.replicate (blockSize rest).toNat 0)
    le_rfl hL h1 h2 (List.length_replicate _ _) (List.length_replicate _ _)
  have hgatfull : gatherLoop (blockSize rest) s e dataL d0 twoOutputs
      (L₁ ++ l :: L₂) 0 0
      (List.replicate (blockSize rest).toNat 0)
      (List.replicate (blockSize rest).toNat 0)
      = .error (.lengthOverrun, aS, aE) := by
    rw [gatherLoop_append_ok L₁ (l :: L₂) 0 0 _ _ _ _ hgatL1, gatherLoop,
      if_pos hcond]
  refine ⟨?_, ?_, ?_, ⟨_, haddfull, haddL1⟩, ⟨wR, hremfull, hremL1⟩,
    ⟨aS, aE, hgatfull, hgatL1⟩⟩
  · rw [addPaddingFull]
    dsimp only
    rw [hres]
    dsimp only
    rw [haddfull]
  · rw [removePaddingFull]
    dsimp only
    rw [hremfull]
  · rw [gatherPaddingFull]
    dsimp only
    rw [hgatfull]

/-- C2 witness: lengths [3, 4] on a 6-row buffer (prefix 3 ≤ 6 but
3 + 4 > 6) with widths (1, 0): all three kernels reject with the
length-overrun error, and the loops abort carrying only segment one's
output. -/
theorem C2_overrun_rejected_witness :
    addPaddingFull 1 0 (⟨[6], [1, 2, 3, 4, 5, 6]⟩ : Tensor Int)
        (some ([3] ++ 4 :: [])) [] false = .error .lengthOverrun
    ∧ removePaddingFull 1 0 (⟨[6], [1, 2, 3, 4, 5, 6]⟩ : Tensor Int)
        (some ([3] ++ 4 :: [])) false = .error .lengthOverrun
    ∧ gatherPaddingFull 1 0 (⟨[6], [1, 2, 3, 4, 5, 6]⟩ : Tensor Int)
        (some ([3] ++ 4 :: [])) false = .error .lengthOverrun
    ∧ (∃ w, addLoop (blockSize []) 1 0 none none
          ([1, 2, 3, 4, 5, 6] : List Int) 6 ([3] ++ 4 :: []) 0 0 []
          = .error (.lengthOverrun, w)
        ∧ addLoop (blockSize []) 1 0 none none
          ([1, 2, 3, 4, 5, 6] : List Int) 6 [3] 0 0 [] = .ok w)
    ∧ (∃ w, removeLoop (blockSize []) 1 0 ([1, 2, 3, 4, 5, 6] : List Int) 6
          ([3] ++ 4 :: []) 0 0 [] = .error (.lengthOverrun, w)
        ∧ removeLoop (blockSize []) 1 0 ([1, 2, 3, 4, 5, 6] : List Int) 6
          [3] 0 0 [] = .ok w)
    ∧ (∃ aS aE, gatherLoop (blockSize []) 1 0
          ([1, 2, 3, 4, 5, 6] : List Int) 6 false ([3] ++ 4 :: []) 0 0
          (List.replicate (blockSize []).toNat 0)
          (List.replicate (blockSize []).toNat 0)
          = .error (.lengthOverrun, aS, aE)
        ∧ gatherLoop (blockSize []) 1 0 ([1, 2, 3, 4, 5, 6] : List Int) 6
          false [3] 0 0
          (List.replicate (blockSize []).toNat 0)
          (List.replicate (blockSize []).toNat 0) = .ok (aS, aE)) :=
  C2_overrun_rejected 1 0 6 [] [1, 2, 3, 4, 5, 6] [3] [] 4 [] none none
    false rfl (by decide) (by decide) (by decide) (by decide) (by decide)
    (by decide) (by decide)

/-- C1: RemovePadding with the padded lengths and the same widths exactly
inverts AddPadding — the original buffer and the original lengths are
recovered bit for bit, whatever the template contents. -/
theorem C1_roundtrip {α : Type} [Zero α] (s e d0 : Int) (rest : List Int)
    (dataL : List α) (L : List Int) (templates : List (Tensor α))
    (padS padE : Option (List α))
    (hres : resolveTemplates templates (blockSize rest) = .ok (padS, padE))
    (htmpl : ∀ t ∈ templates, (t.data.length : Int) = t.size)
    (hbs : 0 ≤ blockSize rest) (hs : 0 ≤ s) (he : 0 ≤ e)
    (hL : ∀ x ∈ L, 0 ≤ x)
    (hsum : L.sum = d0)
    (hlen : (dataL.length : Int) = blockSize rest * d0) :
    ∃ P : Tensor α,
      addPaddingFull s e ⟨d0 :: rest, dataL⟩ (some L) templates true
        = .ok (P, some (L.map (· + (s + e))))
      ∧ removePaddingFull s e P (some (L.map (· + (s + e)))) true
        = .ok (⟨d0 :: rest, dataL⟩, some L) := by
  obtain ⟨hfS, hfE⟩ := resolveTemplates_length hres htmpl
  have hlen' : blockSize rest * L.sum ≤ (dataL.length : Int) := by
    rw [hsum, hlen]
  have hadd := addPaddingFull_ok true hres hbs hs he hL (le_of_eq hsum) hlen'
  refine ⟨⟨(d0 + (s + e) * (L.length : Int)) :: rest,
    addChunks (blockSize rest) s e padS padE dataL L⟩, ?_, ?_⟩
  · rw [hadd]
    simp
  · have hmap : (L.map (· + (s + e))).sum
        = d0 + (s + e) * (L.length : Int) := by
      rw [sum_map_add_const, hsum]
    have htot : (0 : Int) + (L.map (· + (s + e))).sum
        ≤ d0 + (s + e) * (L.length : Int) := by
      rw [hmap]
      omega
    have horig : (dataL.length : Int) = blockSize rest * L.sum := by
      rw [hlen, hsum]
    have hrt := removeLoop_roundtrip hbs hs he hfS hfE L [] dataL [] 0
      hL htot horig
    simp only [List.nil_append, List.length_nil, Nat.cast_zero] at hrt
    rw [removePaddingFull]
    dsimp only
    rw [hrt]
    dsimp only
    rw [List.length_map]
    have hd : d0 + (s + e) * (L.length : Int)
        - (s + e) * (L.length : Int) = d0 := by
      ring
    rw [hd, List.map_map]
    have hmapid : L.map ((fun x => x - (s + e)) ∘ fun x => x + (s + e))
        = L := by
      have hpt : ∀ x ∈ L, ((fun x => x - (s + e)) ∘ fun x => x + (s + e)) x
          = x := by
        intro x _
        simp
      rw [List.map_congr_left hpt]
      simp
    rw [hmapid]
    simp

/-- C1 witness: the spec's concrete scenario — 6 rows `[1..6]`,
lengths [3, 3], widths (1, 0), zero template — padded to 8 rows and
recovered exactly. -/
theorem C1_roundtrip_witness :
    ∃ P : Tensor Int,
      addPaddingFull 1 0 (⟨[6], [1, 2, 3, 4, 5, 6]⟩ : Tensor Int)
          (some [3, 3]) [] true = .ok (P, some [4, 4])
      ∧ removePaddingFull 1 0 P (some [4, 4]) true
        = .ok (⟨[6], [1, 2, 3, 4, 5, 6]⟩, some [3, 3]) :=
  C1_roundtrip 1 0 6 [] [1, 2, 3, 4, 5, 6] [3, 3] [] none none rfl
    (by simp) (by decide) (by decide) (by decide) (by decide) (by decide)
    (by decide)

/-- C4: on a buffer built by AddPadding from an all-zero payload with `k`
segments and uniform block templates, GatherPadding with the padded lengths
returns `k*s*T` element-wise as the start sum and `k*e*T_end` as the end
sum when two outputs are requested; with a single output (shared template)
the start and end padding rows are summed together into it, giving
`k*(s+e)*T`. -/
theorem C4_gather_gradient (s e d0 : Int) (rest : List Int) (L : List Int)
    (Ts Te : Tensor Int)
    (hbs : 0 ≤ blockSize rest) (hs : 0 ≤ s) (he : 0 ≤ e)
    (hL : ∀ x ∈ L, 0 ≤ x)
    (hsum : L.sum = d0)
    (hTs : (Ts.data.length : Int) = blockSize rest)
    (hTssz : Ts.size = blockSize rest)
    (hTe : (Te.data.length : Int) = blockSize rest)
    (hTesz : Te.size = blockSize rest) :
    (∃ P : Tensor Int,
      addPaddingFull s e
          ⟨d0 :: rest, List.replicate (blockSize rest * d0).toNat (0 : Int)⟩
          (some L) [Ts, Te] true
        = .ok (P, some (L.map (· + (s + e))))
      ∧ gatherPaddingFull s e P (some (L.map (· + (s + e)))) true
        = .ok (⟨rest, Ts.data.map fun x => ((L.length : Int) * s) * x⟩,
            some ⟨rest, Te.data.map fun x => ((L.length : Int) * e) * x⟩))
    ∧ (∃ Q : Tensor Int,
      addPaddingFull s e
          ⟨d0 :: rest, List.replicate (blockSize rest * d0).toNat (0 : Int)⟩
          (some L) [Ts] true
        = .ok (Q, some (L.map (· + (s + e))))
      ∧ gatherPaddingFull s e Q (some (L.map (· + (s + e)))) false
        = .ok (⟨rest,
            Ts.data.map fun x => ((L.length : Int) * (s + e)) * x⟩,
            none)) := by
  have hd0 : 0 ≤ d0 := by
    have := List.sum_nonneg hL
    omega
  have hbd0 : 0 ≤ blockSize rest * d0 := mul_nonneg hbs hd0
  have hzlen : ((List.replicate (blockSize rest * d0).toNat
      (0 : Int)).length : Int) = blockSize rest * d0 := by
    rw [List.length_replicate, Int.toNat_of_nonneg hbd0]
  have hzlen' : ((List.replicate (blockSize rest * d0).toNat
      (0 : Int)).length : Int) = blockSize rest * L.sum := by
    rw [hzlen, hsum]
  have hlenle : blockSize rest * L.sum
      ≤ ((List.replicate (blockSize rest * d0).toNat
        (0 : Int)).length : Int) := le_of_eq hzlen'.symm
  have hTsN : Ts.data.length = (blockSize rest).toNat := by omega
  have hTeN : Te.data.length = (blockSize rest).toNat := by omega
  have hmap : (L.map (· + (s + e))).sum
      = d0 + (s + e) * (L.length : Int) := by
    rw [sum_map_add_const, hsum]
  have htot : (0 : Int) + (L.map (· + (s + e))).sum
      ≤ d0 + (s + e) * (L.length : Int) := by
    rw [hmap]
    omega
  constructor
  · -- two outputs, separate templates
    have hres2 : resolveTemplates [Ts, Te] (blockSize rest)
        = .ok (some Ts.data, some Te.data) := by
      rw [resolveTemplates, if_pos hTssz.symm, if_pos hTesz.symm]
    have hadd := addPaddingFull_ok true hres2 hbs hs he hL (le_of_eq hsum)
      hlenle
    refine ⟨⟨(d0 + (s + e) * (L.length : Int)) :: rest,
      addChunks (blockSize rest) s e (some Ts.data) (some Te.data)
        (List.replicate (blockSize rest * d0).toNat (0 : Int)) L⟩,
      by rw [hadd]; simp, ?_⟩
    have hchunks := gatherLoop_chunks_two hbs hs he hTsN hTeN L []
      (List.replicate (blockSize rest * d0).toNat (0 : Int))
      (List.replicate (blockSize rest).toNat 0)
      (List.replicate (blockSize rest).toNat 0) 0
      hL htot hzlen'
      (List.length_replicate _ _) (List.length_replicate _ _)
    simp only [List.nil_append, List.length_nil, Nat.cast_zero] at hchunks
    rw [gatherPaddingFull]
    dsimp only
    rw [hchunks]
    dsimp only
    rw [zipWith_replicate_zero_add _ _ (by rw [List.length_map, hTsN]),
      zipWith_replicate_zero_add _ _ (by rw [List.length_map, hTeN])]
    simp
  · -- one output, shared template
    have hres1 : resolveTemplates [Ts] (blockSize rest)
        = .ok (some Ts.data, some Ts.data) := by
      rw [resolveTemplates, if_pos hTssz.symm]
    have hadd := addPaddingFull_ok true hres1 hbs hs he hL (le_of_eq hsum)
      hlenle
    refine ⟨⟨(d0 + (s + e) * (L.length : Int)) :: rest,
      addChunks (blockSize rest) s e (some Ts.data) (some Ts.data)
        (List.replicate (blockSize rest * d0).toNat (0 : Int)) L⟩,
      by rw [hadd]; simp, ?_⟩
    have hchunks := gatherLoop_chunks_one hbs hs he hTsN L []
      (List.replicate (blockSize rest * d0).toNat (0 : Int))
      (List.replicate (blockSize rest).toNat 0)
      (List.replicate (blockSize rest).toNat 0) 0
      hL htot hzlen'
      (List.length_replicate _ _)
    simp only [List.nil_append, List.length_nil, Nat.cast_zero] at hchunks
    rw [gatherPaddingFull]
    dsimp only
    rw [hchunks]
    dsimp only
    rw [zipWith_replicate_zero_add _ _ (by rw [List.length_map, hTsN])]
    simp

/-- C4 witness: two segments of length 1 over an all-zero 2×2 payload,
widths (1, 1), templates [10, 20] and [30, 40]: the two-output gather
returns 2*1*[10,20] = [20,40] and 2*1*[30,40] = [60,80]; the single-output
gather with the shared template returns 2*(1+1)*[10,20] = [40,80]. -/
theorem C4_gather_gradient_witness :
    (∃ P : Tensor Int,
      addPaddingFull 1 1
          (⟨[2, 2], List.replicate (blockSize [2] * 2).toNat (0 : Int)⟩ :
            Tensor Int)
          (some [1, 1]) [⟨[2], [10, 20]⟩, ⟨[2], [30, 40]⟩] true
        = .ok (P, some [3, 3])
      ∧ gatherPaddingFull 1 1 P (some [3, 3]) true
        = .ok (⟨[2], [20, 40]⟩, some ⟨[2], [60, 80]⟩))
    ∧ (∃ Q : Tensor Int,
      addPaddingFull 1 1
          (⟨[2, 2], List.replicate (blockSize [2] * 2).toNat (0 : Int)⟩ :
            Tensor Int)
          (some [1, 1]) [⟨[2], [10, 20]⟩] true
        = .ok (Q, some [3, 3])
      ∧ gatherPaddingFull 1 1 Q (some [3, 3]) false
        = .ok (⟨[2], [40, 80]⟩, none)) :=
  C4_gather_gradient 1 1 2 [2] [1, 1] ⟨[2], [10, 20]⟩ ⟨[2], [30, 40]⟩
    (by decide) (by decide) (by decide) (by decide) (by decide) (by decide)
    (by decide) (by decide) (by decide)

end SequenceOps
